import Mathlib

/-!
Verification development for the Points Chess engine
(`points-chess-assistant-revised.py`).

The repository builds a decision engine for a chess variant on top of the
`python-chess` rules library.  Following the specification, the rules
library is an external collaborator: we model it as an abstract record of
functions (`Rules`), and the variant layer (`PointsChessGame`), the
evaluator and the search engine (`ChessEngine`) are translated function by
function from the source.  Concrete `Rules` instances appearing below are
used for witnesses and counterexamples; for each of them the corresponding
real chess position is documented next to the instance.
-/

namespace PointsChess

/-- Side colours; `chess.WHITE` / `chess.BLACK` of python-chess. -/
inductive Color
  | white
  | black
deriving DecidableEq, Repr

/-- Python `not color` on the boolean colour encoding. -/
def Color.other : Color → Color
  | .white => .black
  | .black => .white

/-- Piece kinds of python-chess. -/
inductive PieceKind
  | pawn
  | knight
  | bishop
  | rook
  | queen
  | king
deriving DecidableEq, Repr

/-- Point values for pieces: the `PIECE_VALUES` table of `PointsChessGame`. -/
def piece_values : PieceKind → ℕ
  | .pawn => 1
  | .knight => 3
  | .bishop => 3
  | .rook => 5
  | .queen => 9
  | .king => 0

/-- A piece as returned by `board.piece_at`: a kind and a colour. -/
structure Piece where
  kind : PieceKind
  color : Color
deriving DecidableEq, Repr

/-- A move: origin square, destination square, optional promotion kind.
Squares use the python-chess indexing 0..63 (a1 = 0). -/
structure Move where
  fromSq : ℕ
  toSq : ℕ
  promo : Option PieceKind
deriving DecidableEq, Repr

/-- The values stored in `PointsChessGame.winner` (Python strings
`'white'`, `'black'`, `'draw'`; `Option` models Python `None`). -/
inductive GWinner
  | white
  | black
  | draw
deriving DecidableEq, Repr

/-- `self.max_moves = 6`: each player gets 6 moves. -/
def max_moves : ℕ := 6

/-- The external rules-engine collaborator (python-chess `Board` plus the
module-level `chess.Move.from_uci` / `Move.uci`), modelled as an abstract
record of the queries the core actually uses. -/
structure Rules (B : Type) where
  legal_moves : B → List Move
  piece_at : B → ℕ → Option Piece
  push : B → Move → B
  is_checkmate : B → Bool
  is_check : B → Bool
  is_attacked_by : B → Color → ℕ → Bool
  fen : B → String
  turn : B → Color
  from_uci : String → Option Move
  uci : Move → String

/-- The mutable state of `PointsChessGame`, with the per-side dictionaries
`moves_played` / `points_captured` split into explicit fields. -/
structure Game (B : Type) where
  board : B
  moves_played_w : ℕ
  moves_played_b : ℕ
  points_captured_w : ℕ
  points_captured_b : ℕ
  current_player : Color
  game_over : Bool
  winner : Option GWinner
  last_move_was_capture : Bool
  extra_move_granted : Bool
deriving DecidableEq, Repr

/-- Lookup `self.moves_played[player]` by colour. -/
def Game.moves_played_of (g : Game B) : Color → ℕ
  | .white => g.moves_played_w
  | .black => g.moves_played_b

/-- Lookup `self.points_captured[player]` by colour. -/
def Game.points_captured_of (g : Game B) : Color → ℕ
  | .white => g.points_captured_w
  | .black => g.points_captured_b

/-- The state built by `PointsChessGame.__init__` (and by
`reset_game_state` after installing a custom board): counters zero, White
to move, no winner, no pending extra move.  The board is a parameter since
the rules engine owns it. -/
def init_game (b0 : B) : Game B :=
  { board := b0
    moves_played_w := 0
    moves_played_b := 0
    points_captured_w := 0
    points_captured_b := 0
    current_player := .white
    game_over := false
    winner := none
    last_move_was_capture := false
    extra_move_granted := false }

/-- Winner-by-points comparison shared by the move-count termination checks
of `make_move` and `skip_turn`. -/
def points_winner (g : Game B) : GWinner :=
  if g.points_captured_w > g.points_captured_b then GWinner.white
  else if g.points_captured_b > g.points_captured_w then GWinner.black
  else GWinner.draw

/-- `PointsChessGame.make_move`: parses the UCI string, rejects illegal
moves leaving the state untouched, otherwise records the capture, applies
the extra-move rule for a supported capture on the scheduled final move,
pushes the move, updates counters, and runs the termination checks
(checkmate first, then move-budget exhaustion) before the turn hand-over.
Returns the new state together with the Python boolean result. -/
def make_move (R : Rules B) (g : Game B) (move_uci : String) : Game B × Bool :=
  match R.from_uci move_uci with
  | none => (g, false)
  | some move =>
    if move ∈ R.legal_moves g.board then
      let captured := R.piece_at g.board move.toSq
      let g1 := { g with last_move_was_capture := captured.isSome }
      let captured_points := match captured with
        | some p => piece_values p.kind
        | none => 0
      let g2 :=
        if captured.isSome = true ∧ g1.moves_played_of g1.current_player = max_moves - 1 ∧
            R.is_attacked_by g1.board g1.current_player.other move.toSq = true then
          { g1 with extra_move_granted := true }
        else g1
      let g3 := { g2 with board := R.push g2.board move }
      let g4 := match g3.current_player with
        | .white => { g3 with points_captured_w := g3.points_captured_w + captured_points
                              moves_played_w := g3.moves_played_w + 1 }
        | .black => { g3 with points_captured_b := g3.points_captured_b + captured_points
                              moves_played_b := g3.moves_played_b + 1 }
      if R.is_checkmate g4.board then
        ({ g4 with game_over := true
                   winner := some (match g4.current_player with
                     | .white => GWinner.white
                     | .black => GWinner.black) }, true)
      else
        let g5 :=
          if g4.moves_played_w ≥ max_moves ∧ g4.moves_played_b ≥ max_moves ∧
              g4.extra_move_granted = false then
            { g4 with game_over := true, winner := some (points_winner g4) }
          else g4
        let g6 :=
          if g5.extra_move_granted then { g5 with extra_move_granted := false }
          else { g5 with current_player := g5.current_player.other }
        (g6, true)
    else (g, false)

/-- `PointsChessGame.skip_turn`: advances the mover's counter, passes the
turn, then runs the move-budget termination check (with no extra-move
condition, unlike `make_move`). -/
def skip_turn (g : Game B) : Game B × Bool :=
  let g1 := match g.current_player with
    | .white => { g with moves_played_w := g.moves_played_w + 1 }
    | .black => { g with moves_played_b := g.moves_played_b + 1 }
  let g2 := { g1 with current_player := g1.current_player.other }
  let g3 :=
    if g2.moves_played_w ≥ max_moves ∧ g2.moves_played_b ≥ max_moves then
      { g2 with game_over := true, winner := some (points_winner g2) }
    else g2
  (g3, true)

/-- `PointsChessGame.get_legal_moves`: the legal moves of the current
position rendered as UCI strings. -/
def get_legal_moves (R : Rules B) (g : Game B) : List String :=
  (R.legal_moves g.board).map R.uci

/-- `PointsChessGame.evaluate_position`: material points difference with
check, move-scarcity and capture-availability adjustments; terminal states
are scored from the recorded winner. -/
def evaluate_position (R : Rules B) (g : Game B) : ℚ :=
  if g.game_over then
    match g.winner with
    | some .white => 10000
    | some .black => -10000
    | _ => 0
  else
    let material0 : ℚ := (g.points_captured_w : ℚ) - (g.points_captured_b : ℚ)
    let material1 :=
      if R.is_check g.board then
        if R.turn g.board = Color.white then material0 - 5 else material0 + 5
      else material0
    let white_moves_left : ℤ := (max_moves : ℤ) - (g.moves_played_w : ℤ)
    let black_moves_left : ℤ := (max_moves : ℤ) - (g.moves_played_b : ℤ)
    let material2 :=
      if white_moves_left ≤ 2 ∨ black_moves_left ≤ 2 then material1 * 1.5 else material1
    (R.legal_moves g.board).foldl
      (fun acc move =>
        match R.piece_at g.board move.toSq with
        | some p =>
          if R.turn g.board = Color.white then acc + (piece_values p.kind : ℚ) * 0.1
          else acc - (piece_values p.kind : ℚ) * 0.1
        | none => acc)
      material2

/-- `ChessEngine._initialize_piece_square_tables`: the static per-piece
64-entry positional tables, transcribed literally (index = python-chess
square, a1 = 0). -/
def piece_square_tables : PieceKind → List ℤ
  | .pawn =>
    [0, 0, 0, 0, 0, 0, 0, 0,
     5, 10, 10, -20, -20, 10, 10, 5,
     5, -5, -10, 0, 0, -10, -5, 5,
     0, 0, 0, 20, 20, 0, 0, 0,
     5, 5, 10, 25, 25, 10, 5, 5,
     10, 10, 20, 30, 30, 20, 10, 10,
     50, 50, 50, 50, 50, 50, 50, 50,
     0, 0, 0, 0, 0, 0, 0, 0]
  | .knight =>
    [-50, -40, -30, -30, -30, -30, -40, -50,
     -40, -20, 0, 5, 5, 0, -20, -40,
     -30, 5, 10, 15, 15, 10, 5, -30,
     -30, 0, 15, 20, 20, 15, 0, -30,
     -30, 5, 15, 20, 20, 15, 5, -30,
     -30, 0, 10, 15, 15, 10, 0, -30,
     -40, -20, 0, 0, 0, 0, -20, -40,
     -50, -40, -30, -30, -30, -30, -40, -50]
  | .bishop =>
    [-20, -10, -10, -10, -10, -10, -10, -20,
     -10, 5, 0, 0, 0, 0, 5, -10,
     -10, 10, 10, 10, 10, 10, 10, -10,
     -10, 0, 10, 10, 10, 10, 0, -10,
     -10, 5, 5, 10, 10, 5, 5, -10,
     -10, 0, 5, 10, 10, 5, 0, -10,
     -10, 0, 0, 0, 0, 0, 0, -10,
     -20, -10, -10, -10, -10, -10, -10, -20]
  | .rook =>
    [0, 0, 0, 5, 5, 0, 0, 0,
     -5, 0, 0, 0, 0, 0, 0, -5,
     -5, 0, 0, 0, 0, 0, 0, -5,
     -5, 0, 0, 0, 0, 0, 0, -5,
     -5, 0, 0, 0, 0, 0, 0, -5,
     -5, 0, 0, 0, 0, 0, 0, -5,
     5, 10, 10, 10, 10, 10, 10, 5,
     0, 0, 0, 0, 0, 0, 0, 0]
  | .queen =>
    [-20, -10, -10, -5, -5, -10, -10, -20,
     -10, 0, 5, 0, 0, 0, 0, -10,
     -10, 5, 5, 5, 5, 5, 0, -10,
     0, 0, 5, 5, 5, 5, 0, -5,
     -5, 0, 5, 5, 5, 5, 0, -5,
     -10, 0, 5, 5, 5, 5, 0, -10,
     -10, 0, 0, 0, 0, 0, 0, -10,
     -20, -10, -10, -5, -5, -10, -10, -20]
  | .king =>
    [20, 30, 10, 0, 0, 10, 30, 20,
     20, 20, 0, 0, 0, 0, 20, 20,
     -10, -20, -20, -20, -20, -20, -20, -10,
     -20, -30, -30, -40, -40, -30, -30, -20,
     -30, -40, -40, -50, -50, -40, -40, -30,
     -30, -40, -40, -50, -50, -40, -40, -30,
     -30, -40, -40, -50, -50, -40, -40, -30,
     -30, -40, -40, -50, -50, -40, -40, -30]

/-- Table lookup `piece_square_tables[kind][square]` (out-of-range squares
default to 0; they do not occur for python-chess squares). -/
def pst_at (k : PieceKind) (sq : ℕ) : ℤ :=
  (piece_square_tables k).getD sq 0

/-- Scores with the IEEE infinities used by the engine
(`float('-inf')` / `float('inf')` initialisations). -/
inductive Score
  | ninf
  | val (q : ℚ)
  | pinf
deriving DecidableEq, Repr

/-- Negation of a score, as used by the negamax sign flips. -/
def Score.neg : Score → Score
  | .ninf => .pinf
  | .val q => .val (-q)
  | .pinf => .ninf

/-- Strict comparison on scores (IEEE order on the two infinities). -/
def Score.lt : Score → Score → Bool
  | .ninf, .ninf => false
  | .ninf, _ => true
  | .val _, .ninf => false
  | .val a, .val b => decide (a < b)
  | .val _, .pinf => true
  | .pinf, _ => false

/-- Python `max` on scores: the left argument wins ties. -/
def Score.max (a b : Score) : Score :=
  if Score.lt a b then b else a

/-- The per-move score of `ChessEngine._get_fast_move`: capture value
times 10, piece-square delta times 0.1, plus 5 for giving check.  The
unparsable case cannot occur for strings produced by `Move.uci`. -/
def fast_move_score (R : Rules B) (g : Game B) (move_uci : String) : ℚ :=
  match R.from_uci move_uci with
  | none => 0
  | some move =>
    let s1 : ℚ := match R.piece_at g.board move.toSq with
      | some captured => (piece_values captured.kind : ℚ) * 10
      | none => 0
    let s2 := match R.piece_at g.board move.fromSq with
      | some piece =>
        s1 - (pst_at piece.kind move.fromSq : ℚ) * 0.1 + (pst_at piece.kind move.toSq : ℚ) * 0.1
      | none => s1
    if R.is_check (R.push g.board move) then s2 + 5 else s2

/-- The iteration of `_get_fast_move` over the legal moves, keeping the
best (maximal for White, minimal for Black) scored move. -/
def get_fast_move_loop (R : Rules B) (g : Game B) :
    List String → Score → String → String
  | [], _, best_move => best_move
  | mv :: rest, best_score, best_move =>
    let score := Score.val (fast_move_score R g mv)
    if g.current_player = Color.white ∧ Score.lt best_score score = true then
      get_fast_move_loop R g rest score mv
    else if g.current_player = Color.black ∧ Score.lt score best_score = true then
      get_fast_move_loop R g rest score mv
    else
      get_fast_move_loop R g rest best_score best_move

/-- `ChessEngine._get_fast_move`: quick one-ply scan.  Initial best move is
`legal_moves[0]`; the `[]` case would raise `IndexError` in Python and is
never reached from `find_best_move`. -/
def get_fast_move (R : Rules B) (g : Game B) (legal : List String) : String :=
  match legal with
  | [] => ""
  | m0 :: _ =>
    get_fast_move_loop R g legal
      (if g.current_player = Color.white then Score.ninf else Score.pinf) m0

/-- The per-move heuristic of `ChessEngine._order_moves`: capture value
times 100 with MVV-LVA tiebreak, 50 for a check, piece-square value of the
destination times 0.1. -/
def order_move_score (R : Rules B) (g : Game B) (move_uci : String) : ℚ :=
  match R.from_uci move_uci with
  | none => 0
  | some move =>
    let s1 : ℚ := match R.piece_at g.board move.toSq with
      | some captured =>
        let base := (piece_values captured.kind : ℚ) * 100
        match R.piece_at g.board move.fromSq with
        | some attacker => base + (10 - (piece_values attacker.kind : ℚ))
        | none => base
      | none => 0
    let s2 := if R.is_check (R.push g.board move) then s1 + 50 else s1
    match R.piece_at g.board move.fromSq with
    | some piece => s2 + (pst_at piece.kind move.toSq : ℚ) * 0.1
    | none => s2

/-- `ChessEngine._order_moves`: score every candidate, then sort by score
descending.  Python's `list.sort` is stable, which the insertion sort with
a non-strict comparison reproduces. -/
def order_moves (R : Rules B) (g : Game B) (moves : List String) : List String :=
  let scored := moves.map (fun mv => (mv, order_move_score R g mv))
  (scored.insertionSort (fun a b => b.2 ≤ a.2)).map Prod.fst

/-- An entry of the transposition table: `{'score': ..., 'depth': ...}`. -/
structure TEntry where
  score : Score
  depth : ℕ
deriving DecidableEq, Repr

/-- The state threaded through a search: the engine's mutable
`transposition_table` (an association list; the most recent write is
found first, matching dict overwrite) and the index of the next
`time.time()` call. -/
structure SState where
  table : List (String × TEntry)
  tick : ℕ
deriving DecidableEq, Repr

/-- One `time.time()` call against the ambient clock stream. -/
def tnow (clk : ℕ → ℚ) (st : SState) : ℚ × SState :=
  (clk st.tick, { st with tick := st.tick + 1 })

/-- Dictionary lookup in the transposition table. -/
def table_find (t : List (String × TEntry)) (k : String) : Option TEntry :=
  match t.find? (fun e => e.1 == k) with
  | some e => some e.2
  | none => none

/-- Dictionary overwrite in the transposition table. -/
def table_store (t : List (String × TEntry)) (k : String) (e : TEntry) :
    List (String × TEntry) :=
  (k, e) :: t

/-- Rendering of the Python dict `str(self.moves_played)`. -/
def movesStr (w b : ℕ) : String :=
  "\x7b\x27white\x27: " ++ toString w ++ ", \x27black\x27: " ++ toString b ++ "\x7d"

/-- `ChessEngine._get_position_hash`: `board.fen() + str(moves_played)`.
The captured points and the extra-move flag are not part of the key. -/
def get_position_hash (R : Rules B) (g : Game B) : String :=
  R.fen g.board ++ movesStr g.moves_played_w g.moves_played_b

/-- `ChessEngine._clone_game`: a fresh `PointsChessGame` with every field
copied from the source game. -/
def clone_game (g : Game B) : Game B :=
  { board := g.board
    moves_played_w := g.moves_played_w
    moves_played_b := g.moves_played_b
    points_captured_w := g.points_captured_w
    points_captured_b := g.points_captured_b
    current_player := g.current_player
    game_over := g.game_over
    winner := g.winner
    last_move_was_capture := g.last_move_was_capture
    extra_move_granted := g.extra_move_granted }

/-- `ChessEngine._evaluate_position`: the game's evaluation, negated when
the game's current player is Black. -/
def eval_for_color (R : Rules B) (g : Game B) : ℚ :=
  let e := evaluate_position R g
  if g.current_player = Color.black then -e else e

/-- Result of a search step: a value plus the threaded state, or the
`TimeoutError` signal (which also carries the state, because the table
mutations made so far survive the exception in Python). -/
inductive SRes (α : Type)
  | ok (a : α) (st : SState)
  | tout (st : SState)
deriving DecidableEq, Repr

/-- The move loop inside `ChessEngine._negamax`: clone, apply the move,
recurse through `child` with negated window, track the maximum, raise
`alpha`, and break on `alpha >= beta`. -/
def negamax_loop (R : Rules B) (child : Game B → Score → Score → SState → SRes Score) :
    List String → Game B → Score → Score → Score → SState → SRes Score
  | [], _g, max_score, _alpha, _beta, st => .ok max_score st
  | mv :: rest, g, max_score, alpha, beta, st =>
    let game_copy := (make_move R (clone_game g) mv).1
    match child game_copy beta.neg alpha.neg st with
    | .tout st2 => .tout st2
    | .ok sc st2 =>
      let score := sc.neg
      let max_score2 := Score.max max_score score
      let alpha2 := Score.max alpha score
      if Score.lt alpha2 beta = false then .ok max_score2 st2
      else negamax_loop R child rest g max_score2 alpha2 beta st2

/-- `ChessEngine._negamax`: deadline check, transposition probe, leaf
evaluation at depth 0 or a terminal state, otherwise the ordered move loop;
the computed value is stored before returning. -/
def negamax (R : Rules B) (clk : ℕ → ℚ) (start_time time_limit : ℚ) :
    ℕ → Game B → Score → Score → ℤ → SState → SRes Score
  | depth, g, alpha, beta, color, st =>
    let ts := tnow clk st
    if ts.1 - start_time > time_limit * 0.8 then .tout ts.2
    else
      let st1 := ts.2
      let pos_hash := get_position_hash R g
      let hit := match table_find st1.table pos_hash with
        | some e => if e.depth ≥ depth then some e.score else none
        | none => none
      match hit with
      | some sc => .ok sc st1
      | none =>
        match depth with
        | 0 =>
          let score := Score.val ((color : ℚ) * eval_for_color R g)
          .ok score { st1 with table := table_store st1.table pos_hash ⟨score, 0⟩ }
        | d + 1 =>
          if g.game_over then
            let score := Score.val ((color : ℚ) * eval_for_color R g)
            .ok score { st1 with table := table_store st1.table pos_hash ⟨score, d + 1⟩ }
          else
            let ordered := order_moves R g (get_legal_moves R g)
            match negamax_loop R
                (fun g2 a b st2 => negamax R clk start_time time_limit d g2 a b (-color) st2)
                ordered g Score.ninf alpha beta st1 with
            | .tout st2 => .tout st2
            | .ok max_score st2 =>
              .ok max_score { st2 with table := table_store st2.table pos_hash ⟨max_score, d + 1⟩ }

/-- The root-move loop of `ChessEngine._iterative_deepening_search`:
per-move deadline check, clone and apply, score through negamax, keep the
best for the mover. -/
def itd_loop (R : Rules B) (clk : ℕ → ℚ) (start_time time_limit : ℚ) (depth : ℕ)
    (g : Game B) :
    List String → Score → String → SState → SRes String
  | [], _best_score, best_move, st => .ok best_move st
  | mv :: rest, best_score, best_move, st =>
    let ts := tnow clk st
    if ts.1 - start_time > time_limit * 0.8 then .tout ts.2
    else
      let game_copy := (make_move R (clone_game g) mv).1
      let color : ℤ := if g.current_player = Color.white then -1 else 1
      match negamax R clk start_time time_limit (depth - 1) game_copy
          Score.ninf Score.pinf color ts.2 with
      | .tout st2 => .tout st2
      | .ok sc st2 =>
        let score := if g.current_player = Color.black then sc.neg else sc
        if g.current_player = Color.white ∧ Score.lt best_score score = true then
          itd_loop R clk start_time time_limit depth g rest score mv st2
        else if g.current_player = Color.black ∧ Score.lt score best_score = true then
          itd_loop R clk start_time time_limit depth g rest score mv st2
        else
          itd_loop R clk start_time time_limit depth g rest best_score best_move st2

/-- `ChessEngine._iterative_deepening_search`: one full-width search at a
fixed depth over the ordered root moves; `none` exactly when there are no
legal moves. -/
def iterative_deepening_search (R : Rules B) (clk : ℕ → ℚ) (depth : ℕ)
    (time_limit : ℚ) (g : Game B) (st : SState) : SRes (Option String) :=
  let ts := tnow clk st
  match get_legal_moves R g with
  | [] => .ok none ts.2
  | m0 :: rest =>
    let ordered := order_moves R g (m0 :: rest)
    let best_score := if g.current_player = Color.white then Score.ninf else Score.pinf
    match itd_loop R clk ts.1 time_limit depth g ordered best_score m0 ts.2 with
    | .tout st2 => .tout st2
    | .ok best st2 => .ok (some best) st2

/-- The deepening loop of `ChessEngine.find_best_move`: for each depth,
break once 80% of the budget is spent, run one fixed-depth search with the
remaining budget, keep a truthy result, and break on the timeout signal. -/
def deepen_loop (R : Rules B) (clk : ℕ → ℚ) (time_limit start_time : ℚ) (g : Game B) :
    List ℕ → String → SState → String × SState
  | [], best_move, st => (best_move, st)
  | depth :: rest, best_move, st =>
    let ts := tnow clk st
    if ts.1 - start_time > time_limit * 0.8 then (best_move, ts.2)
    else
      let ts2 := tnow clk ts.2
      match iterative_deepening_search R clk depth (time_limit - (ts2.1 - start_time)) g ts2.2 with
      | .tout st3 => (best_move, st3)
      | .ok r st3 =>
        let best2 := match r with
          | some m => if m = "" then best_move else m
          | none => best_move
        deepen_loop R clk time_limit start_time g rest best2 st3

/-- The fields of `ChessEngine` the search reads and writes: the game it
assists and its transposition table. -/
structure Engine (B : Type) where
  game : Game B
  transposition_table : List (String × TEntry)
deriving DecidableEq

/-- `ChessEngine.find_best_move`: `none` when there are no legal moves,
otherwise the fast one-ply candidate refined by iterative deepening over
depths 1..9, degrading to the last confirmed result on timeout. -/
def find_best_move (R : Rules B) (clk : ℕ → ℚ) (time_limit : ℚ) (e : Engine B) :
    Option String × Engine B :=
  let st0 : SState := ⟨e.transposition_table, 0⟩
  let ts := tnow clk st0
  match get_legal_moves R e.game with
  | [] => (none, { e with transposition_table := ts.2.table })
  | m0 :: rest =>
    let best0 := get_fast_move R e.game (m0 :: rest)
    let out := deepen_loop R clk time_limit ts.1 e.game
      [1, 2, 3, 4, 5, 6, 7, 8, 9] best0 ts.2
    (some out.1, { e with transposition_table := out.2.table })

/-! ### Concrete rules instances

Each instance records, for the queries the core actually makes, the
answers python-chess gives on a documented real position.  Unqueried
inputs take default values. -/

/-- A rules instance for an empty board with no legal moves (python-chess
`Board("8/8/8/8/8/8/8/8 w - - 0 1")`). -/
def trivR : Rules Unit :=
  { legal_moves := fun _ => []
    piece_at := fun _ _ => none
    push := fun b _ => b
    is_checkmate := fun _ => false
    is_check := fun _ => false
    is_attacked_by := fun _ _ _ => false
    fen := fun _ => "8/8/8/8/8/8/8/8 w - - 0 1"
    turn := fun _ => Color.white
    from_uci := fun _ => none
    uci := fun _ => "" }

/-- The move Ra6xa4 in UCI coordinates (a6 = square 40, a4 = square 24). -/
def mvA : Move := ⟨40, 24, none⟩

/-- A king step e1e2 (e1 = square 4, e2 = square 12). -/
def mvE : Move := ⟨4, 12, none⟩

/-- Position "r3k3/8/R7/8/p7/8/8/4K3 w - -": White rook a6, Black rook a8,
Black pawn a4, kings e1/e8, White to move.  Board tag "A0"; "A1" is the
position after Ra6xa4.  Before the capture the a8-rook's path to a4 is
blocked by the white rook on a6, so a4 is NOT attacked by Black
(`is_attacked_by(BLACK, a4) = False`); after the capture the a-file is
open and a4 IS attacked by Black. -/
def rulesA : Rules String :=
  { legal_moves := fun b => if b = "A0" then [mvA] else []
    piece_at := fun b sq =>
      if b = "A0" ∧ sq = 24 then some ⟨.pawn, .black⟩
      else if b = "A0" ∧ sq = 40 then some ⟨.rook, .white⟩
      else none
    push := fun b _ => if b = "A0" then "A1" else b
    is_checkmate := fun _ => false
    is_check := fun _ => false
    is_attacked_by := fun b c sq => b == "A1" && c == Color.black && sq == 24
    fen := fun b => b
    turn := fun b => if b = "A1" then Color.black else Color.white
    from_uci := fun s => if s = "a6a4" then some mvA else none
    uci := fun _ => "a6a4" }

/-- The game state of claim C1 over `rulesA`: White has played 5 of 6
moves and is about to make the scheduled final move. -/
def gameA : Game String := ⟨"A0", 5, 5, 0, 0, .white, false, none, false, false⟩

/-- Position "4k3/8/Rn6/8/p7/8/8/4K3 w - -" (spec Scenario C): White rook
a6 captures the Black pawn a4, which the Black knight b6 defends both
before and after the capture.  Tags: "C0" initial, "C1" after Ra6xa4,
"C2" after the extra move Ke1e2. -/
def rulesC : Rules String :=
  { legal_moves := fun b =>
      if b = "C0" then [mvA] else if b = "C1" then [mvE] else []
    piece_at := fun b sq =>
      if b = "C0" ∧ sq = 24 then some ⟨.pawn, .black⟩
      else if b = "C0" ∧ sq = 40 then some ⟨.rook, .white⟩
      else none
    push := fun b _ => if b = "C0" then "C1" else if b = "C1" then "C2" else b
    is_checkmate := fun _ => false
    is_check := fun _ => false
    is_attacked_by := fun b c sq => (b == "C0" || b == "C1") && c == Color.black && sq == 24
    fen := fun b => b
    turn := fun b => if b = "C0" then Color.white else Color.black
    from_uci := fun s =>
      if s = "a6a4" then some mvA else if s = "e1e2" then some mvE else none
    uci := fun m => if m = mvA then "a6a4" else "e1e2" }

/-- The game state of spec Scenario C over `rulesC`. -/
def gameC : Game String := ⟨"C0", 5, 5, 0, 0, .white, false, none, false, false⟩

/-! ### Claim C4: transposition signature -/

/-- Helper: the signature is a function of the board FEN and the move
counters only. -/
theorem hash_ignores_points_and_flag {B : Type} (R : Rules B) (g1 g2 : Game B)
    (hf : R.fen g1.board = R.fen g2.board)
    (hw : g1.moves_played_w = g2.moves_played_w)
    (hb : g1.moves_played_b = g2.moves_played_b) :
    get_position_hash R g1 = get_position_hash R g2 := by
  unfold get_position_hash
  rw [hf, hw, hb]

/-- Two empty-board states agreeing on board and move counters but
differing in captured points and in the extra-move flag. -/
def c4_state_a : Game Unit := ⟨(), 6, 6, 0, 0, .white, false, none, false, false⟩

/-- Companion state to `c4_state_a` with 5 captured points for White and
the extra-move flag set. -/
def c4_state_b : Game Unit := ⟨(), 6, 6, 5, 0, .white, false, none, false, true⟩

/-- C4 counterexample: the two states share a transposition signature yet
differ in captured points and in the extra-move flag, and the evaluator
scores them differently, so the signature does not uniquely identify the
Evaluator's inputs. -/
theorem hash_collision_cex :
    get_position_hash trivR c4_state_a = get_position_hash trivR c4_state_b ∧
    c4_state_a.points_captured_w ≠ c4_state_b.points_captured_w ∧
    c4_state_a.extra_move_granted ≠ c4_state_b.extra_move_granted ∧
    evaluate_position trivR c4_state_a ≠ evaluate_position trivR c4_state_b := by
  refine ⟨rfl, by decide, by decide, ?_⟩
  norm_num [evaluate_position, trivR, c4_state_a, c4_state_b, max_moves]

/-- C4 (amended): the transposition signature `board.fen() +
str(moves_played)` is determined by the board FEN and the two move
counters alone; any two states agreeing on those receive the same
signature even when `points_captured` or `extra_move_granted` — inputs of
the Evaluator — differ. -/
theorem hash_determined_by_fen_and_moves {B : Type} (R : Rules B) (g1 g2 : Game B)
    (hf : R.fen g1.board = R.fen g2.board)
    (hw : g1.moves_played_w = g2.moves_played_w)
    (hb : g1.moves_played_b = g2.moves_played_b) :
    get_position_hash R g1 = get_position_hash R g2 :=
  hash_ignores_points_and_flag R g1 g2 hf hw hb

/-- C4 witness: the amended theorem applied to the two concrete states of
the counterexample. -/
theorem hash_determined_by_fen_and_moves_witness :
    get_position_hash trivR c4_state_a = get_position_hash trivR c4_state_b :=
  hash_determined_by_fen_and_moves trivR c4_state_a c4_state_b rfl rfl rfl

/-! ### Claim C7: rejected moves leave the state unchanged -/

/-- C7: if the move string does not parse, or the parsed move is not in
the legal-move set of the current position, `make_move` returns failure
and the entire game state — board, counters, points, side to move, flags,
termination status — is unchanged. -/
theorem make_move_rejects_illegal {B : Type} (R : Rules B) (g : Game B) (s : String)
    (h : ∀ m, R.from_uci s = some m → m ∉ R.legal_moves g.board) :
    make_move R g s = (g, false) := by
  unfold make_move
  cases hm : R.from_uci s with
  | none => rfl
  | some m => simp [h m hm]

/-- C7 witness: an unparsable string on the empty board is rejected with
the state unchanged. -/
theorem make_move_rejects_illegal_witness :
    make_move trivR (init_game ()) "zz" = (init_game (), false) :=
  make_move_rejects_illegal trivR (init_game ()) "zz"
    (fun m hm => by simp [trivR] at hm)

/-! ### Claim C10: move ordering is a permutation -/

/-- Helper: `_order_moves` permutes any input list (no parse hypothesis;
in the model an unparsable string scores 0, where Python would raise). -/
theorem order_moves_perm_aux {B : Type} (R : Rules B) (g : Game B) (moves : List String) :
    (order_moves R g moves).Perm moves := by
  unfold order_moves
  have h1 :
      ((moves.map fun mv => (mv, order_move_score R g mv)).insertionSort
        (fun a b => b.2 ≤ a.2)).Perm
        (moves.map fun mv => (mv, order_move_score R g mv)) :=
    List.perm_insertionSort _ _
  have h2 := h1.map Prod.fst
  rw [List.map_map] at h2
  simpa [Function.comp_def] using h2

/-- C10: on any list of parseable move strings, `_order_moves` returns a
permutation of its input — every candidate appears exactly once in the
output, none dropped, none added.  (On an unparsable string the Python
raises inside `Move.from_uci`, hence the parseability hypothesis.) -/
theorem order_moves_perm {B : Type} (R : Rules B) (g : Game B) (moves : List String)
    (_h : ∀ s ∈ moves, (R.from_uci s).isSome = true) :
    (order_moves R g moves).Perm moves :=
  order_moves_perm_aux R g moves

/-- C10 witness: ordering the (singleton) legal-move list of the
Scenario-C position permutes it. -/
theorem order_moves_perm_witness :
    (order_moves rulesC gameC ["a6a4"]).Perm ["a6a4"] :=
  order_moves_perm rulesC gameC ["a6a4"] (by decide)

/-! ### Claim C1: the extra-move rule -/

/-- C1 counterexample.  First input (position `rulesA`/`gameA`, Ra6xa4 on
White's scheduled final move): the destination IS attacked by Black
immediately after the capturing rook stands on a4 (the a-file opened), so
the claim requires `extra_move_granted = true` with the side to move
unchanged — but the code evaluates support on the board BEFORE the push,
finds a4 unattacked, grants nothing, and passes the turn to Black.
Second input (Scenario C, `rulesC`/`gameC`, the pawn defended throughout):
the grant does fire and White keeps the move, but the flag is consumed
within the same `make_move` call, so the post-state has
`extra_move_granted = false`, never `true` as the claim states. -/
theorem extra_move_claim_cex :
    (rulesA.is_attacked_by (rulesA.push gameA.board mvA)
        (Color.other gameA.current_player) mvA.toSq = true ∧
      gameA.moves_played_of gameA.current_player = max_moves - 1 ∧
      (rulesA.piece_at gameA.board mvA.toSq).isSome = true ∧
      rulesA.from_uci "a6a4" = some mvA ∧
      mvA ∈ rulesA.legal_moves gameA.board ∧
      (make_move rulesA gameA "a6a4").2 = true ∧
      (make_move rulesA gameA "a6a4").1.extra_move_granted = false ∧
      (make_move rulesA gameA "a6a4").1.current_player = Color.black) ∧
    (rulesC.is_attacked_by (rulesC.push gameC.board mvA)
        (Color.other gameC.current_player) mvA.toSq = true ∧
      gameC.moves_played_of gameC.current_player = max_moves - 1 ∧
      (rulesC.piece_at gameC.board mvA.toSq).isSome = true ∧
      (make_move rulesC gameC "a6a4").2 = true ∧
      (make_move rulesC gameC "a6a4").1.current_player = Color.white ∧
      (make_move rulesC gameC "a6a4").1.extra_move_granted = false) := by
  decide

/-- C1 (amended): when the mover stands at `movesPlayed = maxMoves - 1`
and plays a legal capture whose destination square is attacked by the
opposing colour on the board BEFORE the move is executed (the support
check of the source), and the move does not checkmate, then the granting
move leaves the side to move unchanged but the post-state has
`extraMoveGranted = false` — the transient grant is consumed inside the
same call, suppressing only the move-budget termination check — and on
the subsequent (extra) move, if it does not checkmate, the turn passes
normally with the flag still false. -/
theorem extra_move_amended {B : Type} (R : Rules B) (g : Game B) (s s2 : String)
    (m m2 : Move)
    (hp : R.from_uci s = some m)
    (hl : m ∈ R.legal_moves g.board)
    (hc : (R.piece_at g.board m.toSq).isSome = true)
    (hm5 : g.moves_played_of g.current_player = max_moves - 1)
    (ha : R.is_attacked_by g.board g.current_player.other m.toSq = true)
    (hcm : R.is_checkmate (R.push g.board m) = false) :
    (make_move R g s).2 = true ∧
    (make_move R g s).1.current_player = g.current_player ∧
    (make_move R g s).1.extra_move_granted = false ∧
    (make_move R g s).1.game_over = g.game_over ∧
    (make_move R g s).1.winner = g.winner ∧
    (make_move R g s).1.moves_played_of g.current_player = max_moves ∧
    (R.from_uci s2 = some m2 → m2 ∈ R.legal_moves (make_move R g s).1.board →
      R.is_checkmate (R.push (make_move R g s).1.board m2) = false →
      ((make_move R (make_move R g s).1 s2).1.current_player = g.current_player.other ∧
        (make_move R (make_move R g s).1 s2).1.extra_move_granted = false)) := by
  have hmain : (make_move R g s).1.current_player = g.current_player ∧
      (make_move R g s).2 = true ∧
      (make_move R g s).1.extra_move_granted = false ∧
      (make_move R g s).1.game_over = g.game_over ∧
      (make_move R g s).1.winner = g.winner ∧
      (make_move R g s).1.moves_played_of g.current_player = max_moves := by
    cases hcur : g.current_player with
    | white =>
      rw [hcur] at ha
      simp only [Game.moves_played_of, hcur, max_moves] at hm5
      simp only [Color.other] at ha
      simp [make_move, hp, hl, hc, hm5, ha, hcm, Game.moves_played_of, max_moves, hcur,
        Color.other]
    | black =>
      rw [hcur] at ha
      simp only [Game.moves_played_of, hcur, max_moves] at hm5
      simp only [Color.other] at ha
      simp [make_move, hp, hl, hc, hm5, ha, hcm, Game.moves_played_of, max_moves, hcur,
        Color.other]
  obtain ⟨hcp, hret, hflag, hover, hwin, hmp⟩ := hmain
  refine ⟨hret, hcp, hflag, hover, hwin, hmp, ?_⟩
  intro hp2 hl2 hcm2
  revert hl2 hcm2
  generalize (make_move R g s).1 = g1 at hcp hmp hflag ⊢
  intro hl2 hcm2
  cases hcur : g.current_player with
  | white =>
    rw [hcur] at hcp hmp
    have hm1 : g1.moves_played_w = 6 := by
      simpa [Game.moves_played_of, max_moves] using hmp
    simp only [make_move, hp2, if_pos hl2]
    simp [hcp, hm1, hflag, hcm2, Game.moves_played_of, max_moves, Color.other, hcur]
    split <;> simp [hflag, Color.other, hcp]
  | black =>
    rw [hcur] at hcp hmp
    have hm1 : g1.moves_played_b = 6 := by
      simpa [Game.moves_played_of, max_moves] using hmp
    simp only [make_move, hp2, if_pos hl2]
    simp [hcp, hm1, hflag, hcm2, Game.moves_played_of, max_moves, Color.other, hcur]
    split <;> simp [hflag, Color.other, hcp]

/-- C1 witness: the amended theorem applied to Scenario C (`rulesC`,
`gameC`): the granting capture Ra6xa4 keeps White to move with the flag
already consumed, and the extra move Ke1e2 passes the turn to Black. -/
theorem extra_move_amended_witness :
    (make_move rulesC gameC "a6a4").2 = true ∧
    (make_move rulesC gameC "a6a4").1.current_player = Color.white ∧
    (make_move rulesC gameC "a6a4").1.extra_move_granted = false ∧
    (make_move rulesC (make_move rulesC gameC "a6a4").1 "e1e2").1.current_player =
      Color.black ∧
    (make_move rulesC (make_move rulesC gameC "a6a4").1 "e1e2").1.extra_move_granted =
      false := by
  have h := extra_move_amended rulesC gameC "a6a4" "e1e2" mvA mvE
    (by decide) (by decide) (by decide) (by decide) (by decide) (by decide)
  have h2 := h.2.2.2.2.2.2 (by decide) (by decide) (by decide)
  exact ⟨h.1, h.2.1, h.2.2.1, h2.1, h2.2⟩

/-! ### Claim C2: termination order -/

/-- C2: on every successful `make_move`, checkmate is checked first and is
immediately terminal with the mover as winner regardless of the budget
counters; otherwise the move-budget check fires when both post-move
counters have reached `max_moves` and no extra move is pending (neither
carried in nor granted by this move), with the winner decided by strict
points comparison and a draw on equality. -/
theorem termination_order {B : Type} (R : Rules B) (g : Game B) (s : String) (m : Move)
    (hp : R.from_uci s = some m)
    (hl : m ∈ R.legal_moves g.board) :
    (make_move R g s).2 = true ∧
    (R.is_checkmate (R.push g.board m) = true →
      (make_move R g s).1.game_over = true ∧
      (make_move R g s).1.winner = some (match g.current_player with
        | .white => GWinner.white
        | .black => GWinner.black)) ∧
    (R.is_checkmate (R.push g.board m) = false →
      (make_move R g s).1.moves_played_w ≥ max_moves →
      (make_move R g s).1.moves_played_b ≥ max_moves →
      ¬(g.extra_move_granted = true ∨
          ((R.piece_at g.board m.toSq).isSome = true ∧
            g.moves_played_of g.current_player = max_moves - 1 ∧
            R.is_attacked_by g.board g.current_player.other m.toSq = true)) →
      (make_move R g s).1.game_over = true ∧
      ((make_move R g s).1.points_captured_w > (make_move R g s).1.points_captured_b →
        (make_move R g s).1.winner = some GWinner.white) ∧
      ((make_move R g s).1.points_captured_b > (make_move R g s).1.points_captured_w →
        (make_move R g s).1.winner = some GWinner.black) ∧
      ((make_move R g s).1.points_captured_w = (make_move R g s).1.points_captured_b →
        (make_move R g s).1.winner = some GWinner.draw)) := by
  cases hcur : g.current_player with
  | white =>
    by_cases hg : ((R.piece_at g.board m.toSq).isSome = true ∧
        g.moves_played_w = 5 ∧ R.is_attacked_by g.board Color.black m.toSq = true)
    · refine ⟨?_, ?_, ?_⟩
      · simp only [make_move, hp, if_pos hl]
        simp [hg.1, hg.2.1, hg.2.2, hcur, Game.moves_played_of, Color.other, max_moves]
        split <;> rfl
      · intro hk
        simp only [make_move, hp, if_pos hl]
        simp [hg.1, hg.2.1, hg.2.2, hcur, hk, Game.moves_played_of, Color.other, max_moves]
      · intro _hk _hw _hb hpend
        exfalso
        exact hpend (Or.inr (by
          simp [hcur, Game.moves_played_of, Color.other, max_moves, hg.1, hg.2.1, hg.2.2]))
    · refine ⟨?_, ?_, ?_⟩
      · simp only [make_move, hp, if_pos hl]
        simp [hg, hcur, Game.moves_played_of, Color.other, max_moves]
        split <;> simp
      · intro hk
        simp only [make_move, hp, if_pos hl]
        simp [hg, hcur, hk, Game.moves_played_of, Color.other, max_moves]
      · intro hk hw hb hpend
        have hf : g.extra_move_granted = false := by
          cases hfe : g.extra_move_granted
          · rfl
          · exact absurd (Or.inl hfe) hpend
        simp only [make_move, hp, if_pos hl] at hw hb ⊢
        simp [hg, hcur, hf, hk, Game.moves_played_of, Color.other, max_moves] at hw hb ⊢
        by_cases hC : 5 ≤ g.moves_played_w ∧ 6 ≤ g.moves_played_b
        · simp [hC] at hw hb ⊢
          refine ⟨?_, ?_, ?_⟩ <;> intro hcmp <;>
            simp [points_winner] <;> split_ifs <;> simp_all <;> omega
        · simp [hC] at hw hb
          exact absurd ⟨by omega, hb⟩ hC
  | black =>
    by_cases hg : ((R.piece_at g.board m.toSq).isSome = true ∧
        g.moves_played_b = 5 ∧ R.is_attacked_by g.board Color.white m.toSq = true)
    · refine ⟨?_, ?_, ?_⟩
      · simp only [make_move, hp, if_pos hl]
        simp [hg.1, hg.2.1, hg.2.2, hcur, Game.moves_played_of, Color.other, max_moves]
        split <;> rfl
      · intro hk
        simp only [make_move, hp, if_pos hl]
        simp [hg.1, hg.2.1, hg.2.2, hcur, hk, Game.moves_played_of, Color.other, max_moves]
      · intro _hk _hw _hb hpend
        exfalso
        exact hpend (Or.inr (by
          simp [hcur, Game.moves_played_of, Color.other, max_moves, hg.1, hg.2.1, hg.2.2]))
    · refine ⟨?_, ?_, ?_⟩
      · simp only [make_move, hp, if_pos hl]
        simp [hg, hcur, Game.moves_played_of, Color.other, max_moves]
        split <;> simp
      · intro hk
        simp only [make_move, hp, if_pos hl]
        simp [hg, hcur, hk, Game.moves_played_of, Color.other, max_moves]
      · intro hk hw hb hpend
        have hf : g.extra_move_granted = false := by
          cases hfe : g.extra_move_granted
          · rfl
          · exact absurd (Or.inl hfe) hpend
        simp only [make_move, hp, if_pos hl] at hw hb ⊢
        simp [hg, hcur, hf, hk, Game.moves_played_of, Color.other, max_moves] at hw hb ⊢
        by_cases hC : 6 ≤ g.moves_played_w ∧ 5 ≤ g.moves_played_b
        · simp [hC] at hw hb ⊢
          refine ⟨?_, ?_, ?_⟩ <;> intro hcmp <;>
            simp [points_winner] <;> split_ifs <;> simp_all <;> omega
        · simp [hC] at hw hb
          exact absurd ⟨hw, by omega⟩ hC

/-! ### Claim C3: the evaluator -/

/-- Spec-side reference formula for the non-terminal case, written from
the spec's wording (items 2-4 of section 4.2, applied in order): base
points differential, additive check adjustment, 1.5 scaling under move
scarcity, then a signed 0.1-per-available-capture bonus. -/
def eval_adjusted_diff (R : Rules B) (g : Game B) : ℚ :=
  let diff0 : ℚ := (g.points_captured_w : ℚ) - (g.points_captured_b : ℚ)
  let diff1 := diff0 +
    (if R.is_check g.board then (if R.turn g.board = Color.white then (-5 : ℚ) else 5) else 0)
  let diff2 :=
    if (max_moves : ℤ) - (g.moves_played_w : ℤ) ≤ 2 ∨
        (max_moves : ℤ) - (g.moves_played_b : ℤ) ≤ 2 then
      diff1 * (3 / 2)
    else diff1
  diff2 + (if R.turn g.board = Color.white then (1 : ℚ) else -1) *
    (((R.legal_moves g.board).filterMap (fun mv => R.piece_at g.board mv.toSq)).map
      (fun p => (piece_values p.kind : ℚ))).sum * (1 / 10)

/-- The evaluator exactly as claim C3 states it: the ±10000 override fires
only when the state is terminal BY CHECKMATE; every other state — including
one terminal by move-budget exhaustion — gets the adjusted differential. -/
def eval_claim_c3 (R : Rules B) (g : Game B) : ℚ :=
  if g.game_over = true ∧ R.is_checkmate g.board = true then
    match g.winner with
    | some .white => (10000 : ℚ)
    | some .black => -10000
    | _ => 0
  else eval_adjusted_diff R g

/-- The amended spec-side reference evaluator: ANY recorded terminal state
(checkmate or budget exhaustion) scores +10000 / -10000 / 0 from the
recorded winner, overriding the formula. -/
def eval_spec_amended (R : Rules B) (g : Game B) : ℚ :=
  if g.game_over = true then
    match g.winner with
    | some .white => (10000 : ℚ)
    | some .black => -10000
    | _ => 0
  else eval_adjusted_diff R g

/-- Helper: the capture-bonus fold of `evaluate_position` (White to move)
equals the base plus the summed capture values times the bonus factor. -/
theorem foldl_bonus_add (f : Move → Option Piece) (q : ℚ) :
    ∀ (l : List Move) (b : ℚ),
      l.foldl (fun acc mv => match f mv with
        | some p => acc + (piece_values p.kind : ℚ) * q
        | none => acc) b
      = b + ((l.filterMap f).map (fun p => (piece_values p.kind : ℚ))).sum * q := by
  intro l
  induction l with
  | nil => intro b; simp
  | cons hd tl ih =>
    intro b
    cases hf : f hd
    · simp [List.foldl_cons, hf, ih]
    · simp only [List.foldl_cons, hf, List.filterMap_cons, List.map_cons, List.sum_cons, ih]
      ring

/-- Helper: the capture-bonus fold of `evaluate_position` (Black to move)
equals the base minus the summed capture values times the bonus factor. -/
theorem foldl_bonus_sub (f : Move → Option Piece) (q : ℚ) :
    ∀ (l : List Move) (b : ℚ),
      l.foldl (fun acc mv => match f mv with
        | some p => acc - (piece_values p.kind : ℚ) * q
        | none => acc) b
      = b - ((l.filterMap f).map (fun p => (piece_values p.kind : ℚ))).sum * q := by
  intro l
  induction l with
  | nil => intro b; simp
  | cons hd tl ih =>
    intro b
    cases hf : f hd
    · simp [List.foldl_cons, hf, ih]
    · simp only [List.foldl_cons, hf, List.filterMap_cons, List.map_cons, List.sum_cons, ih]
      ring

/-- C3 (amended): `evaluate_position` coincides everywhere with the
spec-reference evaluator whose ±10000 override fires for every recorded
terminal state, with the formula applied in the claimed order otherwise. -/
theorem evaluate_refines_spec (R : Rules B) (g : Game B) :
    evaluate_position R g = eval_spec_amended R g := by
  unfold evaluate_position eval_spec_amended eval_adjusted_diff
  cases hov : g.game_over with
  | true => simp [hov]
  | false =>
    simp only [hov, Bool.false_eq_true, if_false]
    cases ht : R.turn g.board with
    | white =>
      simp only [ht, if_pos rfl, reduceCtorEq]
      cases hchk : R.is_check g.board <;>
        · simp only [hchk, Bool.false_eq_true, if_false, if_true]
          split_ifs <;>
            · rw [foldl_bonus_add (fun mv => R.piece_at g.board mv.toSq) (0.1 : ℚ)]
              ring_nf
              try norm_num
    | black =>
      simp only [ht, reduceCtorEq, if_false, if_neg]
      cases hchk : R.is_check g.board <;>
        · simp only [hchk, Bool.false_eq_true, if_false, if_true]
          split_ifs <;>
            · rw [foldl_bonus_sub (fun mv => R.piece_at g.board mv.toSq) (0.1 : ℚ)]
              ring_nf
              try norm_num

/-- A state terminal by move-budget exhaustion (not checkmate): both
counters at 6, White won 3 points, empty board, `winner = white`. -/
def c3_state : Game Unit := ⟨(), 6, 6, 3, 0, .white, true, some .white, false, false⟩

/-- C3 counterexample: on a state terminal by budget exhaustion (not by
checkmate), the code returns 10000, while the claim's reference evaluator
(checkmate-only override) returns the adjusted differential 9/2. -/
theorem evaluate_claim_cex :
    evaluate_position trivR c3_state = 10000 ∧
    trivR.is_checkmate c3_state.board = false ∧
    eval_claim_c3 trivR c3_state = 9 / 2 ∧
    (10000 : ℚ) ≠ 9 / 2 := by
  refine ⟨by norm_num [evaluate_position, c3_state], by decide, ?_, by norm_num⟩
  norm_num [eval_claim_c3, eval_adjusted_diff, trivR, c3_state, max_moves]


/-! ### Claim C9: move-counter monotonicity and bounds -/

/-- Iterated `skip_turn`, used to drive concrete executions. -/
def skip_iter : ℕ → Game Unit → Game Unit
  | 0, g => g
  | n + 1, g => skip_iter n (skip_turn g).1

/-- C9 counterexample: fifteen consecutive `skip_turn` calls from a fresh
game (nothing in the code guards a finished game) drive White's counter to
8 = `max_moves + 2`, beyond the claimed bound `max_moves + 1 = 7`. -/
theorem moves_bound_cex :
    (skip_iter 15 (init_game ())).moves_played_w = max_moves + 2 ∧
    ¬((skip_iter 15 (init_game ())).moves_played_w ≤ max_moves + 1) := by
  decide

/-- The turn/counter relationship maintained by guarded play from a fresh
game: derived by exhausting the reachable `(current_player, moves_w,
moves_b)` patterns, including the two extra-move tails. -/
def shape (g : Game B) : Prop :=
  (g.current_player = Color.white ∧ g.moves_played_w = g.moves_played_b ∧
    g.moves_played_b ≤ 5) ∨
  (g.current_player = Color.black ∧ g.moves_played_w = g.moves_played_b + 1 ∧
    g.moves_played_b ≤ 5) ∨
  (g.current_player = Color.white ∧ g.moves_played_w = 6 ∧ g.moves_played_b = 5) ∨
  (g.current_player = Color.black ∧ g.moves_played_w = 7 ∧
    (g.moves_played_b = 5 ∨ g.moves_played_b = 6)) ∨
  (g.current_player = Color.black ∧ g.moves_played_w = 6 ∧ g.moves_played_b = 6)

/-- The inductive counter invariant: both counters at most 7, and, while
the game is running, the extra-move flag is clear and the counters follow
`shape`. -/
def counters_ok (g : Game B) : Prop :=
  g.moves_played_w ≤ 7 ∧ g.moves_played_b ≤ 7 ∧
  (g.game_over = false → g.extra_move_granted = false ∧ shape g)

/-- Guarded reachability: states produced from a fresh game by `make_move`
and `skip_turn` calls made only while the game is not over. -/
inductive ReachG (R : Rules B) (b0 : B) : Game B → Prop
  | init : ReachG R b0 (init_game b0)
  | move (g : Game B) (s : String) : ReachG R b0 g → g.game_over = false →
      ReachG R b0 (make_move R g s).1
  | skip (g : Game B) : ReachG R b0 g → g.game_over = false →
      ReachG R b0 (skip_turn g).1

set_option maxHeartbeats 1600000 in
/-- Helper: `skip_turn` preserves the counter invariant from a running
state. -/
theorem counters_ok_skip {B : Type} (g : Game B)
    (h : counters_ok g) (hov : g.game_over = false) :
    counters_ok (skip_turn g).1 := by
  obtain ⟨hw7, hb7, hrest⟩ := h
  obtain ⟨hflag, hshape⟩ := hrest hov
  unfold skip_turn
  cases hcur : g.current_player <;>
    simp only [shape, hcur, reduceCtorEq, false_and, false_or, or_false, true_and] at hshape <;>
    simp [hcur, Color.other, max_moves] <;>
    split_ifs <;>
    simp_all [counters_ok, shape, hov, hflag, Color.other, max_moves] <;>
    omega

set_option maxHeartbeats 3200000 in
/-- Helper: `make_move` preserves the counter invariant from a running
state. -/
theorem counters_ok_move {B : Type} (R : Rules B) (g : Game B) (s : String)
    (h : counters_ok g) (hov : g.game_over = false) :
    counters_ok (make_move R g s).1 := by
  obtain ⟨hw7, hb7, hrest⟩ := h
  obtain ⟨hflag, hshape⟩ := hrest hov
  unfold make_move
  cases hm : R.from_uci s with
  | none => exact ⟨hw7, hb7, fun _ => ⟨hflag, hshape⟩⟩
  | some m =>
    by_cases hl : m ∈ R.legal_moves g.board
    case neg =>
      simp only [if_neg hl]
      exact ⟨hw7, hb7, fun _ => ⟨hflag, hshape⟩⟩
    case pos =>
      simp only [if_pos hl]
      cases hcur : g.current_player with
      | white =>
        simp only [shape, hcur, reduceCtorEq, false_and, false_or, or_false, true_and]
          at hshape
        cases hcap : (R.piece_at g.board m.toSq).isSome <;>
          cases hatt : R.is_attacked_by g.board Color.black m.toSq <;>
            cases hk : R.is_checkmate (R.push g.board m) <;>
              by_cases h5 : g.moves_played_w = 5 <;>
                simp [hcur, hcap, hatt, hk, h5, hflag, Color.other, Game.moves_played_of,
                  max_moves] <;>
                (try split_ifs) <;>
                simp_all [counters_ok, shape, hov, hflag, Color.other, max_moves] <;>
                omega
      | black =>
        simp only [shape, hcur, reduceCtorEq, false_and, false_or, or_false, true_and]
          at hshape
        cases hcap : (R.piece_at g.board m.toSq).isSome <;>
          cases hatt : R.is_attacked_by g.board Color.white m.toSq <;>
            cases hk : R.is_checkmate (R.push g.board m) <;>
              by_cases h5 : g.moves_played_b = 5 <;>
                simp [hcur, hcap, hatt, hk, h5, hflag, Color.other, Game.moves_played_of,
                  max_moves] <;>
                (try split_ifs) <;>
                simp_all [counters_ok, shape, hov, hflag, Color.other, max_moves] <;>
                omega

/-- Helper: every guarded-reachable state satisfies the counter
invariant. -/
theorem reachG_counters_ok {B : Type} (R : Rules B) (b0 : B) (g : Game B)
    (h : ReachG R b0 g) : counters_ok g := by
  induction h with
  | init => exact ⟨by simp [init_game], by simp [init_game], fun _ => by
      simp [init_game, shape]⟩
  | move g s _ hov ih => exact counters_ok_move _ g s ih hov
  | skip g _ hov ih => exact counters_ok_skip g ih hov

set_option maxHeartbeats 1600000 in
/-- Helper: one `make_move` never decreases either counter. -/
theorem make_move_moves_monotone {B : Type} (R : Rules B) (g : Game B) (s : String) :
    g.moves_played_w ≤ (make_move R g s).1.moves_played_w ∧
    g.moves_played_b ≤ (make_move R g s).1.moves_played_b := by
  unfold make_move
  cases hm : R.from_uci s with
  | none => simp
  | some m =>
    by_cases hl : m ∈ R.legal_moves g.board
    case neg => simp [if_neg hl]
    case pos =>
      simp only [if_pos hl]
      cases hcur : g.current_player <;>
        simp [hcur, Game.moves_played_of, Color.other, max_moves] <;>
        split_ifs <;>
        simp [Game.moves_played_of]

/-- Helper: one `skip_turn` never decreases either counter. -/
theorem skip_turn_moves_monotone {B : Type} (g : Game B) :
    g.moves_played_w ≤ (skip_turn g).1.moves_played_w ∧
    g.moves_played_b ≤ (skip_turn g).1.moves_played_b := by
  unfold skip_turn
  cases hcur : g.current_player <;>
    simp [hcur, Color.other, max_moves] <;>
    split_ifs <;>
    simp

/-- C9 (amended): each side's `movesPlayed` is monotonically
non-decreasing under every `make_move` and `skip_turn`; and along any
sequence of operations that are only invoked while `gameOver` is false
(the spec's "immutable once gameOver" lifecycle), both counters stay
bounded by `maxMoves + 1 = 7`.  Unguarded (post-game-over) calls can
exceed the bound, as the counterexample shows. -/
theorem moves_bound_amended {B : Type} (R : Rules B) (b0 : B) (g : Game B) (s : String) :
    (g.moves_played_w ≤ (make_move R g s).1.moves_played_w ∧
      g.moves_played_b ≤ (make_move R g s).1.moves_played_b ∧
      g.moves_played_w ≤ (skip_turn g).1.moves_played_w ∧
      g.moves_played_b ≤ (skip_turn g).1.moves_played_b) ∧
    (ReachG R b0 g →
      g.moves_played_w ≤ max_moves + 1 ∧ g.moves_played_b ≤ max_moves + 1) := by
  refine ⟨⟨(make_move_moves_monotone R g s).1, (make_move_moves_monotone R g s).2,
    (skip_turn_moves_monotone g).1, (skip_turn_moves_monotone g).2⟩, ?_⟩
  intro hreach
  have h := reachG_counters_ok R b0 g hreach
  exact ⟨by simpa [max_moves] using h.1, by simpa [max_moves] using h.2.1⟩

/-- C9 witness: the amended theorem applied to the fresh game over the
empty-board rules. -/
theorem moves_bound_amended_witness :
    (init_game () : Game Unit).moves_played_w ≤ max_moves + 1 ∧
    (init_game () : Game Unit).moves_played_b ≤ max_moves + 1 :=
  (moves_bound_amended trivR () (init_game ()) "zz").2 ReachG.init


/-! ### Witness instance for C2 -/

/-- A position with the single quiet legal move Ke1e2 and no checkmate
(for instance kings e1/e8 alone with only this move listed).  Used to
exercise the draw branch of the move-budget termination. -/
def rulesD : Rules Unit :=
  { legal_moves := fun _ => [mvE]
    piece_at := fun _ _ => none
    push := fun b _ => b
    is_checkmate := fun _ => false
    is_check := fun _ => false
    is_attacked_by := fun _ _ _ => false
    fen := fun _ => "4k3/8/8/8/8/8/8/4K3 w - - 0 1"
    turn := fun _ => Color.white
    from_uci := fun str => if str = "e1e2" then some mvE else none
    uci := fun _ => "e1e2" }

/-- The state just before White's last budgeted move, Black's budget
already exhausted, no points on either side. -/
def d_state : Game Unit := ⟨(), 5, 6, 0, 0, .white, false, none, false, false⟩

/-- C2 witness: the termination theorem applied to the concrete quiet
move; the game ends by budget exhaustion with a draw on equal points. -/
theorem termination_order_witness :
    (make_move rulesD d_state "e1e2").2 = true ∧
    (make_move rulesD d_state "e1e2").1.game_over = true ∧
    (make_move rulesD d_state "e1e2").1.winner = some GWinner.draw := by
  have h := termination_order rulesD d_state "e1e2" mvE (by decide) (by decide)
  have h3 := h.2.2 (by decide) (by decide) (by decide) (by decide)
  exact ⟨h.1, h3.1, h3.2.2.2 (by decide)⟩

/-! ### Claims C5, C6, C8: the search engine -/

/-- Helper: the `_get_fast_move` loop only ever returns its accumulator or
an element of the list it iterates. -/
theorem get_fast_move_loop_mem {B : Type} (R : Rules B) (g : Game B) (L : List String) :
    ∀ (l : List String) (bs : Score) (best : String), best ∈ L → (∀ x ∈ l, x ∈ L) →
      get_fast_move_loop R g l bs best ∈ L := by
  intro l
  induction l with
  | nil =>
    intro bs best hb _
    simpa [get_fast_move_loop] using hb
  | cons mv rest ih =>
    intro bs best hb hl
    simp only [get_fast_move_loop]
    split_ifs
    · exact ih _ _ (hl mv (by simp)) (fun x hx => hl x (by simp [hx]))
    · exact ih _ _ (hl mv (by simp)) (fun x hx => hl x (by simp [hx]))
    · exact ih _ _ hb (fun x hx => hl x (by simp [hx]))

/-- Helper: `_get_fast_move` returns an element of a nonempty input. -/
theorem get_fast_move_mem {B : Type} (R : Rules B) (g : Game B) (m0 : String)
    (rest : List String) : get_fast_move R g (m0 :: rest) ∈ m0 :: rest := by
  unfold get_fast_move
  exact get_fast_move_loop_mem R g (m0 :: rest) (m0 :: rest) _ m0 (by simp) (fun x hx => hx)

/-- Helper: the root loop of `_iterative_deepening_search` only completes
with its accumulator or an element of the iterated list. -/
theorem itd_loop_mem {B : Type} (R : Rules B) (clk : ℕ → ℚ) (start lim : ℚ)
    (depth : ℕ) (g : Game B) (L : List String) :
    ∀ (l : List String) (bs : Score) (best : String) (st : SState) (r : String)
      (st2 : SState), best ∈ L → (∀ x ∈ l, x ∈ L) →
      itd_loop R clk start lim depth g l bs best st = SRes.ok r st2 → r ∈ L := by
  intro l
  induction l with
  | nil =>
    intro bs best st r st2 hb _ h
    simp only [itd_loop, SRes.ok.injEq] at h
    rw [← h.1]
    exact hb
  | cons mv rest ih =>
    intro bs best st r st2 hb hl h
    simp only [itd_loop] at h
    repeat' split at h
    all_goals first
      | exact absurd h (by simp)
      | exact ih _ _ _ _ _ (hl mv (by simp)) (fun x hx => hl x (by simp [hx])) h
      | exact ih _ _ _ _ _ hb (fun x hx => hl x (by simp [hx])) h

/-- Helper: a completed `_iterative_deepening_search` returns a legal
move of the position it searched. -/
theorem itds_mem {B : Type} (R : Rules B) (clk : ℕ → ℚ) (depth : ℕ) (lim : ℚ)
    (g : Game B) (st : SState) (mv : String) (st2 : SState)
    (h : iterative_deepening_search R clk depth lim g st = SRes.ok (some mv) st2) :
    mv ∈ get_legal_moves R g := by
  unfold iterative_deepening_search at h
  cases hleg : get_legal_moves R g with
  | nil =>
    rw [hleg] at h
    simp at h
  | cons m0 rest =>
    rw [hleg] at h
    simp only at h
    split at h
    · exact absurd h (by simp)
    · rename_i best st3 hloop
      simp only [SRes.ok.injEq, Option.some.injEq] at h
      rw [← h.1]
      refine itd_loop_mem R clk _ _ depth g (m0 :: rest) _ _ _ _ _ _ (by simp) ?_ hloop
      intro x hx
      exact (order_moves_perm_aux R g (m0 :: rest)).subset hx

/-- Helper: the deepening loop of `find_best_move` returns its fallback
or a move completed by some fixed-depth search. -/
theorem deepen_loop_mem {B : Type} (R : Rules B) (clk : ℕ → ℚ) (lim start : ℚ)
    (g : Game B) (L : List String)
    (hL : ∀ (d : ℕ) (lim2 : ℚ) (st1 st2 : SState) (mv : String),
      iterative_deepening_search R clk d lim2 g st1 = SRes.ok (some mv) st2 → mv ∈ L) :
    ∀ (ds : List ℕ) (best : String) (st : SState), best ∈ L →
      (deepen_loop R clk lim start g ds best st).1 ∈ L := by
  intro ds
  induction ds with
  | nil => intro best st hb; simpa [deepen_loop] using hb
  | cons d rest ih =>
    intro best st hb
    simp only [deepen_loop]
    split
    · exact hb
    · split
      · exact hb
      · rename_i r st3 hres
        cases r with
        | none => exact ih _ _ hb
        | some m =>
          by_cases hm : m = ""
          · simp only [hm, if_pos rfl]
            exact ih _ _ hb
          · simp only [if_neg hm]
            exact ih _ _ (hL _ _ _ _ _ hres)

/-- C5: `find_best_move` returns no move exactly when the position has no
legal moves, and any returned move is a member of the legal-move list of
the position it was asked about. -/
theorem find_best_move_legal {B : Type} (R : Rules B) (clk : ℕ → ℚ) (lim : ℚ)
    (e : Engine B) :
    ((find_best_move R clk lim e).1 = none ↔ R.legal_moves e.game.board = []) ∧
    (∀ mv, (find_best_move R clk lim e).1 = some mv → mv ∈ get_legal_moves R e.game) := by
  constructor
  · constructor
    · intro h
      unfold find_best_move at h
      cases hleg : get_legal_moves R e.game with
      | nil => simpa [get_legal_moves, List.map_eq_nil_iff] using hleg
      | cons m0 rest =>
        rw [hleg] at h
        simp at h
    · intro h
      unfold find_best_move
      have hleg : get_legal_moves R e.game = [] := by simp [get_legal_moves, h]
      rw [hleg]
  · intro mv hmv
    unfold find_best_move at hmv
    cases hleg : get_legal_moves R e.game with
    | nil =>
      rw [hleg] at hmv
      simp at hmv
    | cons m0 rest =>
      rw [hleg] at hmv
      simp only [Option.some.injEq] at hmv
      rw [← hmv]
      refine deepen_loop_mem R clk lim _ e.game (m0 :: rest) ?_ _ _ _
        (get_fast_move_mem R e.game m0 rest)
      intro d lim2 st1 st2 m hm
      have := itds_mem R clk d lim2 e.game st1 m st2 hm
      rwa [hleg] at this

/-- C8: the search operates only on per-branch clones: the engine's own
game — board, counters, points, side to move, termination fields and the
extra-move flag — is identical before and after `find_best_move` (only the
transposition table is written), and `_clone_game` copies every field, so
each branch explores an identical private copy of its parent state. -/
theorem search_frame {B : Type} (R : Rules B) (clk : ℕ → ℚ) (lim : ℚ) (e : Engine B) :
    (find_best_move R clk lim e).2.game = e.game ∧
    ∀ g : Game B, clone_game g = g := by
  constructor
  · unfold find_best_move
    cases hleg : get_legal_moves R e.game with
    | nil => rfl
    | cons m0 rest => rfl
  · intro g
    rfl


/-- The constant clock used to drive concrete search executions. -/
def clk0 : ℕ → ℚ := fun _ => 0

/-- The engine of Scenario C with an empty transposition table. -/
def engC : Engine String := ⟨gameC, []⟩

/-- Helper: with a negative time budget the deepening loop stops at its
first deadline check, so `find_best_move` on the Scenario-C position
returns the fast one-ply candidate Ra6xa4. -/
theorem find_best_move_engC_eval :
    (find_best_move rulesC clk0 (-1) engC).1 = some "a6a4" := by
  have hleg : get_legal_moves rulesC gameC = ["a6a4"] := by decide
  have hfast : get_fast_move rulesC gameC ["a6a4"] = "a6a4" := by
    simp [get_fast_move, get_fast_move_loop, gameC, Score.lt]
  unfold find_best_move
  simp only [engC, hleg]
  rw [show (deepen_loop rulesC clk0 (-1)
      (tnow clk0 ⟨[], 0⟩).1 gameC [1, 2, 3, 4, 5, 6, 7, 8, 9]
      (get_fast_move rulesC gameC ["a6a4"]) (tnow clk0 ⟨[], 0⟩).2).1 =
      get_fast_move rulesC gameC ["a6a4"] from ?_, hfast]
  simp only [deepen_loop, tnow, clk0]
  norm_num

/-- C5 witness: the theorem applied to the empty board (no legal moves,
result `none`) and to the Scenario-C engine (result Ra6xa4, which is a
member of the legal-move list). -/
theorem find_best_move_legal_witness :
    (find_best_move trivR clk0 5 ⟨init_game (), []⟩).1 = none ∧
    "a6a4" ∈ get_legal_moves rulesC gameC := by
  constructor
  · exact (find_best_move_legal trivR clk0 5 ⟨init_game (), []⟩).1.mpr rfl
  · exact (find_best_move_legal rulesC clk0 (-1) engC).2 "a6a4" find_best_move_engC_eval

end PointsChess
